import Mathlib

/-!
Shallow embedding of the filtering and statistics pipeline of
`src/py/dashboard_5_oov.py` (political-shares-analysis dashboard).

Tables are lists of records.  pandas column values are modelled as `String`
(categorical), `Option String` (nullable categorical, NaN is `none`), `ℚ`
(float scores) and `ℕ` (article counts).  pandas `.round(k)` on floats is
modelled over `ℚ` (`round2`, `round1`); no property below depends on the
tie-breaking rule of binary floating point.  Division and rounding are
written with the kernel-computable `qdiv` and `ratRound` so concrete runs
evaluate; `qdiv_eq` and `ratRound_eq_round` relate them to `/` and `round`.
-/

/-- Row of the domain-level table `all_analysis_data.csv` (spec: DomainRecord). -/
structure DomainRecord where
  Domain : String
  Global_Classification : String
  Sentiment : String
  Local_Category : String
  Topic_Category : String
  Score : ℚ
  Combination_Total_Count : ℕ
  deriving DecidableEq

/-- Row of the per-article table `scatter_analysis.csv` (spec: PostRecord).
The four grouping-key columns are nullable. -/
structure PostRecord where
  party : Option String
  Sentiment_Category : Option String
  Local_Category : Option String
  Topic_Category : Option String
  Score : ℚ
  ave_sentiment : ℚ
  deriving DecidableEq

/-- The sidebar `filters` dictionary built in `run_domain_analysis` and
`run_posts_analysis`: a score interval plus four categorical selectors, each
either the sentinel `"All"` or a concrete value. -/
structure Filters where
  score_range : ℚ × ℚ
  party : String
  sentiment : String
  local_cat : String
  topic : String
  deriving DecidableEq

/-- Embedding of `filter_dataframe(df, filters)` (dashboard_5_oov.py, lines
29-51), stage by stage: inclusive score-range bound, then the four
categorical selectors.  The `local_cat` selector has an `else` branch: when
it is `"All"` the rows are restricted to `Local_Category == "all"`. -/
def filter_dataframe (df : List DomainRecord) (filters : Filters) : List DomainRecord :=
  let filtered_df := df
  let filtered_df := filtered_df.filter fun r =>
    decide (filters.score_range.1 ≤ r.Score) && decide (r.Score ≤ filters.score_range.2)
  let filtered_df := if filters.party ≠ "All" then
      filtered_df.filter fun r => decide (r.Global_Classification = filters.party)
    else filtered_df
  let filtered_df := if filters.sentiment ≠ "All" then
      filtered_df.filter fun r => decide (r.Sentiment = filters.sentiment)
    else filtered_df
  let filtered_df := if filters.local_cat ≠ "All" then
      filtered_df.filter fun r => decide (r.Local_Category = filters.local_cat)
    else
      filtered_df.filter fun r => decide (r.Local_Category = "all")
  let filtered_df := if filters.topic ≠ "All" then
      filtered_df.filter fun r => decide (r.Topic_Category = filters.topic)
    else filtered_df
  filtered_df

/-- Embedding of the inline filter of `run_posts_analysis` (lines 288-300):
same staged shape as `filter_dataframe`, but the `local_cat` selector has no
`else` branch, and the categorical columns are nullable (pandas `NaN == v`
is false, hence the `some` comparisons). -/
def posts_filter (posts_df : List PostRecord) (filters : Filters) : List PostRecord :=
  let filtered_posts := posts_df.filter fun r =>
    decide (filters.score_range.1 ≤ r.Score) && decide (r.Score ≤ filters.score_range.2)
  let filtered_posts := if filters.party ≠ "All" then
      filtered_posts.filter fun r => decide (r.party = some filters.party)
    else filtered_posts
  let filtered_posts := if filters.sentiment ≠ "All" then
      filtered_posts.filter fun r => decide (r.Sentiment_Category = some filters.sentiment)
    else filtered_posts
  let filtered_posts := if filters.local_cat ≠ "All" then
      filtered_posts.filter fun r => decide (r.Local_Category = some filters.local_cat)
    else filtered_posts
  let filtered_posts := if filters.topic ≠ "All" then
      filtered_posts.filter fun r => decide (r.Topic_Category = some filters.topic)
    else filtered_posts
  filtered_posts

/-- The single row predicate that `filter_dataframe` amounts to (the
conjunction, innermost stage last, that chaining its five stages produces). -/
def domainRowPred (filters : Filters) (r : DomainRecord) : Bool :=
  (if filters.topic ≠ "All" then decide (r.Topic_Category = filters.topic) else true) &&
    ((if filters.local_cat ≠ "All" then decide (r.Local_Category = filters.local_cat)
      else decide (r.Local_Category = "all")) &&
      ((if filters.sentiment ≠ "All" then decide (r.Sentiment = filters.sentiment) else true) &&
        ((if filters.party ≠ "All" then decide (r.Global_Classification = filters.party)
          else true) &&
          (decide (filters.score_range.1 ≤ r.Score) && decide (r.Score ≤ filters.score_range.2)))))

/-- The single row predicate that `posts_filter` amounts to. -/
def postRowPred (filters : Filters) (r : PostRecord) : Bool :=
  (if filters.topic ≠ "All" then decide (r.Topic_Category = some filters.topic) else true) &&
    ((if filters.local_cat ≠ "All" then decide (r.Local_Category = some filters.local_cat)
      else true) &&
      ((if filters.sentiment ≠ "All" then decide (r.Sentiment_Category = some filters.sentiment)
        else true) &&
        ((if filters.party ≠ "All" then decide (r.party = some filters.party) else true) &&
          (decide (filters.score_range.1 ≤ r.Score) && decide (r.Score ≤ filters.score_range.2)))))

/-- Party labels counted as Democrat by `calculate_domain_statistics`
(source line 102). -/
def demAliases : List String := ["Democrat", "Democratic", "dem"]

/-- Party labels counted as Republican by `calculate_domain_statistics`
(source line 104). -/
def repAliases : List String := ["Republican", "rep"]

/-- Kernel-computable division on `ℚ` (the division of the `Field ℚ`
instance does not reduce definitionally because `Rat.inv` is irreducible);
`qdiv_eq` proves it equal to `/`. -/
def qdiv (a b : ℚ) : ℚ := Rat.divInt (a.num * b.den) (a.den * b.num)

/-- Kernel-computable round-to-nearest (ties away from the floor) on `ℚ`;
`ratRound_eq_round` proves it equal to Mathlib `round`. -/
def ratRound (q : ℚ) : ℤ := (q.num * 2 + q.den).fdiv (q.den * 2)

/-- Rounding to two decimal places over `ℚ`, modelling pandas `.round(2)`. -/
def round2 (q : ℚ) : ℚ := Rat.divInt (ratRound (q * 100)) 100

/-- Rounding to one decimal place over `ℚ`, modelling pandas `.round(1)`. -/
def round1 (q : ℚ) : ℚ := Rat.divInt (ratRound (q * 10)) 10

/-- Row of the `calculate_domain_statistics` output, fields in the column
order of source lines 112-113: Domain, Total Articles, Democrat Articles,
Republican Articles, Average Score, Min Score, Max Score, Party. -/
structure DomainStats where
  Domain : String
  total_articles : ℕ
  dem_articles : ℕ
  rep_articles : ℕ
  average_score : ℚ
  min_score : ℚ
  max_score : ℚ
  party : String
  deriving DecidableEq

/-- One `groupby("Domain")` group: the rows of `df` whose `Domain` is `d`,
in their original order. -/
def domainGroup (df : List DomainRecord) (d : String) : List DomainRecord :=
  df.filter fun r => decide (r.Domain = d)

/-- Aggregates of one `groupby("Domain")` group (source lines 92-98: sum of
counts, mean/min/max of Score rounded to 2 decimals, first-seen
classification), plus the party-restricted counts of lines 102-109 (an
`isin` row filter, then a per-domain sum; a domain absent from the
restricted frame gets 0, matching `fillna(0)`). -/
def domainStatsRow (df : List DomainRecord) (d : String) : DomainStats :=
  let g := domainGroup df d
  let scores := g.map (·.Score)
  { Domain := d,
    total_articles := (g.map (·.Combination_Total_Count)).sum,
    dem_articles := (((df.filter fun r =>
        decide (r.Global_Classification ∈ demAliases)).filter fun r =>
          decide (r.Domain = d)).map (·.Combination_Total_Count)).sum,
    rep_articles := (((df.filter fun r =>
        decide (r.Global_Classification ∈ repAliases)).filter fun r =>
          decide (r.Domain = d)).map (·.Combination_Total_Count)).sum,
    average_score := round2 (qdiv scores.sum (scores.length : ℚ)),
    min_score := round2 ((scores.min?).getD 0),
    max_score := round2 ((scores.max?).getD 0),
    party := ((g.head?).map (·.Global_Classification)).getD "" }

/-- Embedding of `calculate_domain_statistics(df)` (source lines 90-113):
group by Domain (pandas lists the group keys sorted), aggregate each group,
sort the rows by Total Articles descending, and attach the party-restricted
counts.  `List.mergeSort` stands in for the pandas sorts; the claims proved
below do not depend on how ties are ordered. -/
def calculate_domain_statistics (df : List DomainRecord) : List DomainStats :=
  let domains := ((df.map (·.Domain)).dedup).mergeSort fun a b => decide (a ≤ b)
  let stats_df := domains.map (domainStatsRow df)
  stats_df.mergeSort fun a b => decide (b.total_articles ≤ a.total_articles)

/-- The four grouping keys of the sunburst `groupby` (source line 310), or
`none` when one of the key columns is null — pandas `groupby` drops such
rows from every group. -/
def sunburstKey (r : PostRecord) : Option (String × String × String × String) :=
  match r.Topic_Category, r.Local_Category, r.Sentiment_Category, r.party with
  | some t, some l, some s, some p => some (t, l, s, p)
  | _, _, _, _ => none

/-- Row of the sunburst aggregation table (source lines 309-315). -/
structure SunburstRow where
  Topic_Category : String
  Local_Category : String
  Sentiment_Category : String
  party : String
  count : ℕ
  percentage_total : ℚ
  percentage_filtered : ℚ
  deriving DecidableEq

/-- Embedding of the sunburst aggregation of `run_posts_analysis` (source
lines 306-315): group the filtered rows by the four keys (rows with a null
key are dropped by `groupby`), take group sizes as `count`, and attach the
two percentage columns; `total_count_all` is the unfiltered and
`total_count_filtered` the filtered row count.  Group keys are listed in
first-seen order; pandas sorts them, which only permutes the output rows. -/
def sunburst_data (posts_df filtered_posts : List PostRecord) : List SunburstRow :=
  let total_count_all := posts_df.length
  let total_count_filtered := filtered_posts.length
  let keys := filtered_posts.filterMap sunburstKey
  keys.dedup.map fun k =>
    { Topic_Category := k.1,
      Local_Category := k.2.1,
      Sentiment_Category := k.2.2.1,
      party := k.2.2.2,
      count := keys.count k,
      percentage_total := round1 ((qdiv (keys.count k : ℚ) (total_count_all : ℚ)) * 100),
      percentage_filtered :=
        round1 ((qdiv (keys.count k : ℚ) (total_count_filtered : ℚ)) * 100) }

/-- Case-insensitive match of a regular-expression pattern whose only
metacharacter is the dot (matching any one character) against the start of
a text.  pandas `Series.str.contains(pat, case=False)` compiles `pat` as a
regular expression (`regex=True` is the default); this models that
semantics for patterns free of metacharacters other than the dot. -/
def dotMatchAt : List Char → List Char → Bool
  | [], _ => true
  | _ :: _, [] => false
  | p :: ps, t :: ts =>
      (decide (p = '.') || decide (p.toLower = t.toLower)) && dotMatchAt ps ts

/-- Unanchored `re.search` semantics over `dotMatchAt`: the pattern may
match starting at any position of the text. -/
def dotSearch (pat s : String) : Bool :=
  s.data.tails.any fun t => dotMatchAt pat.data t

/-- Modelled from the spec: the case-insensitive substring match against
`Domain` that the spec attributes to the free-text domain search. -/
def specSubstringCI (pat s : String) : Bool :=
  decide ((pat.data.map Char.toLower) <:+: (s.data.map Char.toLower))

/-- Embedding of the post-filter domain narrowing of `run_domain_analysis`
(source lines 229-232): a truthy (non-empty) search text applies
`Domain.str.contains(search_text, case=False)` — a case-insensitive regular
expression search — and a truthy exact selection applies an equality match;
both conditions are applied in sequence, so they are conjoined. -/
def apply_domain_search (filtered_df : List DomainRecord)
    (search_text exact_domain : String) : List DomainRecord :=
  let filtered_df := if search_text ≠ "" then
      filtered_df.filter fun r => dotSearch search_text r.Domain
    else filtered_df
  if exact_domain ≠ "" then
    filtered_df.filter fun r => decide (r.Domain = exact_domain)
  else filtered_df

/-- Example domain rows used in the concrete checks. -/
def exDomainRow1 : DomainRecord :=
  { Domain := "a.com", Global_Classification := "Democrat", Sentiment := "pos",
    Local_Category := "all", Topic_Category := "t", Score := 5, Combination_Total_Count := 10 }

/-- Second example domain row (same domain, Republican). -/
def exDomainRow2 : DomainRecord :=
  { Domain := "a.com", Global_Classification := "Republican", Sentiment := "neg",
    Local_Category := "all", Topic_Category := "t", Score := 3, Combination_Total_Count := 4 }

/-- Third example domain row (distinct domain, classification in neither
alias set). -/
def exDomainRow3 : DomainRecord :=
  { Domain := "b.com", Global_Classification := "Both", Sentiment := "neu",
    Local_Category := "all", Topic_Category := "u", Score := 7, Combination_Total_Count := 2 }

/-- Example criteria with every selector at the "All" sentinel. -/
def exCriteriaAll : Filters :=
  { score_range := (0, 10), party := "All", sentiment := "All",
    local_cat := "All", topic := "All" }

/-- Example criteria selecting a party, the other selectors at "All". -/
def exCriteriaDem : Filters :=
  { score_range := (0, 10), party := "Democrat", sentiment := "All",
    local_cat := "All", topic := "All" }

/-- Example post row with a null `Local_Category`. -/
def exPostNull : PostRecord :=
  { party := some "dem", Sentiment_Category := some "pos", Local_Category := none,
    Topic_Category := some "t", Score := 5, ave_sentiment := 0 }

/-- Example post row with every grouping key present. -/
def exPostFull : PostRecord :=
  { party := some "dem", Sentiment_Category := some "pos", Local_Category := some "local",
    Topic_Category := some "t", Score := 5, ave_sentiment := 0 }

/-- Example domain row whose Domain matches the search text `"a.com"` as a
regular expression (the dot matching `z`) but not as a substring. -/
def exSearchRow : DomainRecord :=
  { Domain := "azcom", Global_Classification := "Both", Sentiment := "neu",
    Local_Category := "all", Topic_Category := "t", Score := 5, Combination_Total_Count := 1 }

/-- Example criteria whose score range lies above every example row. -/
def exCriteriaHigh : Filters :=
  { score_range := (6, 7), party := "All", sentiment := "All",
    local_cat := "All", topic := "All" }

/-- Generic stage shape: a conditionally applied `List.filter` with an
`else`-branch filter is one `List.filter` with the condition inside. -/
theorem filter_stage {α : Type} (l : List α) (cond : Prop) [Decidable cond]
    (p q : α → Bool) :
    (if cond then l.filter p else l.filter q)
      = l.filter (fun a => if cond then p a else q a) := by
  split <;> [skip; skip] <;> (apply List.filter_congr ; intro a _ ; simp_all)

/-- Generic stage shape: a conditionally applied `List.filter` with identity
`else` branch is one `List.filter` with the condition inside. -/
theorem filter_stage_id {α : Type} (l : List α) (cond : Prop) [Decidable cond]
    (p : α → Bool) :
    (if cond then l.filter p else l)
      = l.filter (fun a => if cond then p a else true) := by
  split
  · apply List.filter_congr ; intro a _ ; simp_all
  · exact (List.filter_eq_self.mpr fun a _ => rfl).symm

/-- The staged domain filter is one `List.filter` by `domainRowPred`. -/
theorem filter_dataframe_eq (df : List DomainRecord) (c : Filters) :
    filter_dataframe df c = df.filter (domainRowPred c) := by
  unfold filter_dataframe
  simp only [filter_stage, filter_stage_id, List.filter_filter]
  apply List.filter_congr
  intro a _
  unfold domainRowPred
  split_ifs <;> simp

/-- The staged posts filter is one `List.filter` by `postRowPred`. -/
theorem posts_filter_eq (posts_df : List PostRecord) (c : Filters) :
    posts_filter posts_df c = posts_df.filter (postRowPred c) := by
  unfold posts_filter
  simp only [filter_stage, filter_stage_id, List.filter_filter]
  apply List.filter_congr
  intro a _
  unfold postRowPred
  split_ifs <;> simp

/-- The kernel-computable division agrees with the field division of `ℚ`. -/
theorem qdiv_eq (a b : ℚ) : qdiv a b = a / b := by
  rw [qdiv, Rat.divInt_eq_div]
  rcases eq_or_ne b 0 with rfl | hb
  · simp
  · have hbn : (b.num : ℚ) ≠ 0 := by exact_mod_cast Rat.num_ne_zero.mpr hb
    have had : (a.den : ℚ) ≠ 0 := by exact_mod_cast a.den_ne_zero
    have hbd : (b.den : ℚ) ≠ 0 := by exact_mod_cast b.den_ne_zero
    conv_rhs => rw [← Rat.num_div_den a, ← Rat.num_div_den b]
    push_cast
    field_simp

/-- The kernel-computable rounding agrees with Mathlib `round` on `ℚ`. -/
theorem ratRound_eq_round (q : ℚ) : ratRound q = round q := by
  rw [round_eq, ratRound]
  have hq : q + 1/2 = (((q.num * 2 + (q.den : ℤ) : ℤ)) : ℚ) / (((q.den * 2 : ℕ)) : ℚ) := by
    have hd : ((q.den : ℚ)) ≠ 0 := by exact_mod_cast q.den_ne_zero
    conv_lhs => rw [← Rat.num_div_den q]
    push_cast
    field_simp
  rw [hq, Rat.floor_intCast_div_natCast]
  rw [Int.fdiv_eq_ediv _ (by positivity)]
  push_cast
  ring_nf

/-- Unfolding of `round1` through Mathlib `round`. -/
theorem round1_eq (q : ℚ) : round1 q = ((round (q * 10) : ℤ) : ℚ) / 10 := by
  rw [round1, Rat.divInt_eq_div, ratRound_eq_round]
  norm_num

/-- One decimal place of rounding moves a rational by at most `1 / 20`. -/
theorem abs_round1_sub_le (q : ℚ) : |round1 q - q| ≤ 1 / 20 := by
  rw [round1_eq]
  have h := abs_sub_round (q * 10)
  rw [abs_sub_comm] at h
  have heq : ((round (q * 10) : ℤ) : ℚ) / 10 - q = (((round (q * 10) : ℤ) : ℚ) - q * 10) / 10 := by
    ring
  rw [heq, abs_div, abs_of_pos (show (0:ℚ) < 10 by norm_num)]
  linarith

/-- C2: every row retained by `filter_dataframe` lies in the inclusive score
range, and matches each categorical selector that is not the "All" sentinel
exactly (String equality is case-sensitive). -/
theorem C2_filter_bounds_and_selectors (df : List DomainRecord) (c : Filters)
    (r : DomainRecord) (hr : r ∈ filter_dataframe df c) :
    (c.score_range.1 ≤ r.Score ∧ r.Score ≤ c.score_range.2) ∧
      (c.party ≠ "All" → r.Global_Classification = c.party) ∧
      (c.sentiment ≠ "All" → r.Sentiment = c.sentiment) ∧
      (c.local_cat ≠ "All" → r.Local_Category = c.local_cat) ∧
      (c.topic ≠ "All" → r.Topic_Category = c.topic) := by
  rw [filter_dataframe_eq] at hr
  have h := (List.mem_filter.mp hr).2
  unfold domainRowPred at h
  split_ifs at h <;> simp_all

/-- Witness for C2 at a concrete table, criteria and row. -/
theorem C2_filter_bounds_and_selectors_witness :
    exDomainRow1 ∈ filter_dataframe [exDomainRow1, exDomainRow3] exCriteriaDem ∧
      ((exCriteriaDem.score_range.1 ≤ exDomainRow1.Score ∧
          exDomainRow1.Score ≤ exCriteriaDem.score_range.2) ∧
        (exCriteriaDem.party ≠ "All" → exDomainRow1.Global_Classification = exCriteriaDem.party) ∧
        (exCriteriaDem.sentiment ≠ "All" → exDomainRow1.Sentiment = exCriteriaDem.sentiment) ∧
        (exCriteriaDem.local_cat ≠ "All" → exDomainRow1.Local_Category = exCriteriaDem.local_cat) ∧
        (exCriteriaDem.topic ≠ "All" → exDomainRow1.Topic_Category = exCriteriaDem.topic)) :=
  ⟨by decide, C2_filter_bounds_and_selectors [exDomainRow1, exDomainRow3] exCriteriaDem
    exDomainRow1 (by decide)⟩

/-- C1: the Local_Category selector is asymmetric between the pipelines.  In
the domain pipeline the "All" sentinel restricts to rows tagged `"all"`, and
a specific selection restricts to exactly that value (so it excludes the
`"all"` rows whenever the selection is not itself `"all"`); in the posts
pipeline the "All" sentinel applies no Local_Category restriction: a row of
the table is retained iff it passes the score bound and the other three
selectors, regardless of its Local_Category. -/
theorem C1_local_category_asymmetry (df : List DomainRecord)
    (posts_df : List PostRecord) (c : Filters) (r : DomainRecord) (p : PostRecord) :
    (c.local_cat = "All" → r ∈ filter_dataframe df c → r.Local_Category = "all") ∧
      (c.local_cat ≠ "All" → r ∈ filter_dataframe df c →
        r.Local_Category = c.local_cat ∧ (c.local_cat ≠ "all" → r.Local_Category ≠ "all")) ∧
      (c.local_cat = "All" →
        (p ∈ posts_filter posts_df c ↔ p ∈ posts_df ∧
          (c.score_range.1 ≤ p.Score ∧ p.Score ≤ c.score_range.2) ∧
          (c.party ≠ "All" → p.party = some c.party) ∧
          (c.sentiment ≠ "All" → p.Sentiment_Category = some c.sentiment) ∧
          (c.topic ≠ "All" → p.Topic_Category = some c.topic))) := by
  refine ⟨?_, ?_, ?_⟩
  · intro hAll hr
    rw [filter_dataframe_eq] at hr
    have h := (List.mem_filter.mp hr).2
    unfold domainRowPred at h
    rw [hAll] at h
    simp only [Bool.and_eq_true, decide_eq_true_eq] at h
    simpa using h.2.1
  · intro hne hr
    rw [filter_dataframe_eq] at hr
    have h := (List.mem_filter.mp hr).2
    unfold domainRowPred at h
    simp only [Bool.and_eq_true, decide_eq_true_eq] at h
    have hl := h.2.1
    rw [if_pos hne] at hl
    simp only [decide_eq_true_eq] at hl
    exact ⟨hl, fun hna => by rw [hl]; exact hna⟩
  · intro hAll
    rw [posts_filter_eq, List.mem_filter]
    unfold postRowPred
    rw [hAll]
    constructor
    · intro ⟨hp, h⟩
      split_ifs at h <;> simp_all
    · intro ⟨hp, h⟩
      refine ⟨hp, ?_⟩
      split_ifs <;> simp_all

/-- Witness for C1: with every selector at "All", a domain row tagged
`"all"` survives and its tag is forced; a posts row with a null
Local_Category passes the posts filter. -/
theorem C1_local_category_asymmetry_witness :
    exDomainRow1.Local_Category = "all" ∧ exPostNull ∈ posts_filter [exPostNull] exCriteriaAll :=
  ⟨(C1_local_category_asymmetry [exDomainRow1] [exPostNull] exCriteriaAll exDomainRow1
      exPostNull).1 rfl (by decide),
   ((C1_local_category_asymmetry [exDomainRow1] [exPostNull] exCriteriaAll exDomainRow1
      exPostNull).2.2 rfl).mpr (by decide)⟩

/-- C8: the main criteria filter is idempotent. -/
theorem C8_filter_idempotent (t : List DomainRecord) (c : Filters) :
    filter_dataframe (filter_dataframe t c) c = filter_dataframe t c := by
  rw [filter_dataframe_eq t c, filter_dataframe_eq (t.filter (domainRowPred c)) c,
    List.filter_filter]
  exact List.filter_congr fun a _ => Bool.and_self _

/-- C6: the free-text domain search evaluated at the failing input.  The
code (pandas `str.contains`, which reads the search text as a regular
expression) retains the row `Domain = "azcom"` for search text `"a.com"`,
while the case-insensitive substring semantics the spec states rejects it;
the two positive examples of the spec agree under both readings. -/
theorem C6_regex_vs_substring :
    apply_domain_search [exSearchRow] "a.com" "" = [exSearchRow] ∧
      specSubstringCI "a.com" "azcom" = false ∧
      specSubstringCI "a.com" "A.COM" = true ∧
      specSubstringCI "a.com" "sub.a.com.net" = true := by
  decide

unseal Rat.add Rat.mul Rat.inv List.merge List.mergeSort in
/-- C3: the worked aggregation example.  Two rows of domain `"a.com"`
(Democrat count 10 score 5, Republican count 4 score 3) aggregate to the
single row Total Articles 14, Democrat Articles 10, Republican Articles 4,
Average Score 4; a domain with no rows in an alias set (classification
`"Both"`) gets both party counts 0. -/
theorem C3_domain_statistics_example :
    calculate_domain_statistics [exDomainRow1, exDomainRow2] =
      [{ Domain := "a.com", total_articles := 14, dem_articles := 10, rep_articles := 4,
         average_score := 4, min_score := 3, max_score := 5, party := "Democrat" }] ∧
      calculate_domain_statistics [exDomainRow3] =
        [{ Domain := "b.com", total_articles := 2, dem_articles := 0, rep_articles := 0,
           average_score := 7, min_score := 7, max_score := 7, party := "Both" }] := by
  decide

/-- Pointwise sums distribute over a mapped addition (ℕ version). -/
theorem sum_map_add_nat {α : Type} (l : List α) (f g : α → ℕ) :
    (l.map fun x => f x + g x).sum = (l.map f).sum + (l.map g).sum := by
  induction l with
  | nil => rfl
  | cons a t ih => simp only [List.map_cons, List.sum_cons, ih]; omega

/-- Summing an indicator of one key over a duplicate-free key list that
contains it yields that key's value. -/
theorem sum_map_ite_eq_of_mem {α : Type} [DecidableEq α] (ks : List α) (a : α) (c : ℕ)
    (hnd : ks.Nodup) (ha : a ∈ ks) :
    (ks.map fun d => if a = d then c else 0).sum = c := by
  induction ks with
  | nil => cases ha
  | cons k t ih =>
    rcases List.mem_cons.mp ha with rfl | hat
    · have hnt : a ∉ t := (List.nodup_cons.mp hnd).1
      have hz : (t.map fun d => if a = d then c else 0).sum = 0 :=
        List.sum_eq_zero fun x hx => by
          rcases List.mem_map.mp hx with ⟨d, hd, rfl⟩
          rw [if_neg (fun h : a = d => hnt (h ▸ hd))]
      simp [hz]
    · have hak : a ≠ k := fun h : a = k => (List.nodup_cons.mp hnd).1 (h ▸ hat)
      simp [if_neg hak, ih (List.nodup_cons.mp hnd).2 hat]

/-- The per-domain group sums of `Combination_Total_Count`, taken over any
duplicate-free list of keys covering every row's domain, add up to the
whole table's sum. -/
theorem sum_fiber_counts (df : List DomainRecord) (ks : List String)
    (hnd : ks.Nodup) (hcov : ∀ r ∈ df, r.Domain ∈ ks) :
    (ks.map fun d => ((domainGroup df d).map (·.Combination_Total_Count)).sum).sum
      = (df.map (·.Combination_Total_Count)).sum := by
  induction df with
  | nil => simp [domainGroup]
  | cons r tl ih =>
    have hpt : ∀ d, ((domainGroup (r :: tl) d).map (·.Combination_Total_Count)).sum
        = (if r.Domain = d then r.Combination_Total_Count else 0)
          + ((domainGroup tl d).map (·.Combination_Total_Count)).sum := by
      intro d
      unfold domainGroup
      by_cases h : r.Domain = d <;> simp [List.filter_cons, h]
    simp only [hpt]
    rw [sum_map_add_nat, sum_map_ite_eq_of_mem ks r.Domain _ hnd (hcov r (by simp)),
      ih fun x hx => hcov x (List.mem_cons_of_mem _ hx)]
    simp

/-- C4: conservation and order of the domain statistics.  The Total Articles
column of `calculate_domain_statistics` sums to the `Combination_Total_Count`
sum of its input table (the filtered table, in the pipeline), and the output
rows are pairwise in descending Total Articles order. -/
theorem C4_total_articles_sum_and_sorted (df : List DomainRecord) :
    ((calculate_domain_statistics df).map (·.total_articles)).sum
        = (df.map (·.Combination_Total_Count)).sum ∧
      (calculate_domain_statistics df).Pairwise
        (fun a b => b.total_articles ≤ a.total_articles) := by
  constructor
  · unfold calculate_domain_statistics
    simp only []
    set stats := List.map (domainStatsRow df)
      (((List.map (fun x => x.Domain) df).dedup).mergeSort fun a b => decide (a ≤ b)) with hstats
    rw [((List.mergeSort_perm stats fun a b =>
      decide (b.total_articles ≤ a.total_articles)).map fun x => x.total_articles).sum_eq]
    rw [hstats, List.map_map]
    have hmap : ((((List.map (fun x => x.Domain) df).dedup).mergeSort fun a b =>
            decide (a ≤ b)).map ((fun x => x.total_articles) ∘ domainStatsRow df))
        = ((((List.map (fun x => x.Domain) df).dedup).mergeSort fun a b => decide (a ≤ b)).map
          fun d => ((domainGroup df d).map (·.Combination_Total_Count)).sum) := by
      apply List.map_congr_left
      intro d _
      rfl
    rw [hmap, ((List.mergeSort_perm _ _).map fun d =>
      ((domainGroup df d).map (·.Combination_Total_Count)).sum).sum_eq]
    apply sum_fiber_counts
    · exact List.nodup_dedup _
    · intro r hr
      exact List.mem_dedup.mpr (List.mem_map_of_mem _ hr)
  · unfold calculate_domain_statistics
    simp only []
    have hs := @List.sorted_mergeSort DomainStats
      (fun a b : DomainStats => decide (b.total_articles ≤ a.total_articles))
      (fun a b c hab hbc => by
        simp only [decide_eq_true_eq] at *
        omega)
      (fun a b => by
        simp only [Bool.or_eq_true, decide_eq_true_eq]
        omega)
      ((((df.map (·.Domain)).dedup).mergeSort fun a b => decide (a ≤ b)).map
        (domainStatsRow df))
    exact hs.imp fun h => by simpa using h

/-- Two disjoint row filters of one list have weight sums that together
never exceed the list's weight sum. -/
theorem sum_filter_disjoint_le {α : Type} (l : List α) (p q : α → Bool) (w : α → ℕ)
    (hpq : ∀ a, p a = true → q a = true → False) :
    ((l.filter p).map w).sum + ((l.filter q).map w).sum ≤ (l.map w).sum := by
  induction l with
  | nil => simp
  | cons a t ih =>
    by_cases hp : p a = true
    · have hq : q a = false := by
        rcases Bool.eq_false_or_eq_true (q a) with h | h
        · exact absurd h fun hh => hpq a hp hh
        · exact h
      simp [List.filter_cons, hp, hq]
      omega
    · have hp' : p a = false := by simpa using hp
      by_cases hq : q a = true
      · simp [List.filter_cons, hp', hq]
        omega
      · have hq' : q a = false := by simpa using hq
        simp [List.filter_cons, hp', hq']
        omega

/-- Reordering two chained filters of one list. -/
theorem filter_comm_list {α : Type} (l : List α) (p q : α → Bool) :
    (l.filter p).filter q = (l.filter q).filter p := by
  rw [List.filter_filter, List.filter_filter]
  exact List.filter_congr fun a _ => Bool.and_comm _ _

/-- C10: in every output row of the domain statistics, the two
party-restricted counts together never exceed Total Articles — rows whose
classification is in neither alias set (for example `"Both"`) count toward
Total Articles only. -/
theorem C10_party_counts_le_total (df : List DomainRecord) (row : DomainStats)
    (hrow : row ∈ calculate_domain_statistics df) :
    row.dem_articles + row.rep_articles ≤ row.total_articles := by
  unfold calculate_domain_statistics at hrow
  simp only [] at hrow
  rw [List.mem_mergeSort, List.mem_map] at hrow
  rcases hrow with ⟨d, _, rfl⟩
  unfold domainStatsRow
  simp only []
  rw [filter_comm_list df (fun r => decide (r.Global_Classification ∈ demAliases))
      (fun r => decide (r.Domain = d)),
    filter_comm_list df (fun r => decide (r.Global_Classification ∈ repAliases))
      (fun r => decide (r.Domain = d))]
  apply sum_filter_disjoint_le
  intro a hp hq
  simp only [decide_eq_true_eq, demAliases, repAliases, List.mem_cons,
    List.not_mem_nil, or_false] at hp hq
  rcases hp with h | h | h <;> rcases hq with h' | h' <;> rw [h] at h' <;>
    exact absurd h' (by decide)

unseal Rat.add Rat.mul Rat.inv List.merge List.mergeSort in
/-- Witness for C10 at a concrete table: the domain `"b.com"` row
(classification `"Both"`) has both party counts 0 and Total Articles 2. -/
theorem C10_party_counts_le_total_witness :
    ({ Domain := "b.com", total_articles := 2, dem_articles := 0, rep_articles := 0,
       average_score := 7, min_score := 7, max_score := 7, party := "Both" } : DomainStats).dem_articles
      + ({ Domain := "b.com", total_articles := 2, dem_articles := 0, rep_articles := 0,
           average_score := 7, min_score := 7, max_score := 7, party := "Both" } : DomainStats).rep_articles
      ≤ ({ Domain := "b.com", total_articles := 2, dem_articles := 0, rep_articles := 0,
           average_score := 7, min_score := 7, max_score := 7, party := "Both" } : DomainStats).total_articles :=
  C10_party_counts_le_total [exDomainRow3] _ (by decide)

/-- C7: when the score range excludes every row, the posts filter is empty
and the sunburst aggregation returns the empty table — an empty-but-valid
output, with no group ever dividing by the zero filtered total. -/
theorem C7_empty_filter_empty_sunburst (posts_df : List PostRecord) (c : Filters)
    (h : ∀ p ∈ posts_df, ¬(c.score_range.1 ≤ p.Score ∧ p.Score ≤ c.score_range.2)) :
    posts_filter posts_df c = [] ∧ sunburst_data posts_df (posts_filter posts_df c) = [] := by
  have hf : posts_filter posts_df c = [] := by
    rw [posts_filter_eq, List.filter_eq_nil_iff]
    intro a ha hp
    unfold postRowPred at hp
    simp only [Bool.and_eq_true, decide_eq_true_eq] at hp
    exact h a ha ⟨hp.2.2.2.2.1, hp.2.2.2.2.2⟩
  exact ⟨hf, by rw [hf]; rfl⟩

/-- Witness for C7: one post with score 5 against the range [6, 7]. -/
theorem C7_empty_filter_empty_sunburst_witness :
    posts_filter [exPostFull] exCriteriaHigh = [] ∧
      sunburst_data [exPostFull] (posts_filter [exPostFull] exCriteriaHigh) = [] :=
  C7_empty_filter_empty_sunburst [exPostFull] exCriteriaHigh (by decide)

/-- Fibering any list over a duplicate-free covering key list by equality
partitions its length. -/
theorem sum_fiber_lengths {α : Type} [DecidableEq α] (l ks : List α)
    (hnd : ks.Nodup) (hcov : ∀ x ∈ l, x ∈ ks) :
    (ks.map fun k => (l.filter fun x => decide (x = k)).length).sum = l.length := by
  induction l with
  | nil => simp
  | cons a t ih =>
    have hpt : ∀ k, ((a :: t).filter fun x => decide (x = k)).length
        = (if a = k then 1 else 0) + (t.filter fun x => decide (x = k)).length := by
      intro k
      by_cases h : a = k <;> simp [List.filter_cons, h, Nat.add_comm]
    simp only [hpt]
    rw [sum_map_add_nat, sum_map_ite_eq_of_mem ks a 1 hnd (hcov a (by simp)),
      ih fun x hx => hcov x (List.mem_cons_of_mem _ hx)]
    simp [Nat.add_comm]

/-- A filterMap is as long as the filter by definedness of the key. -/
theorem length_filterMap_sunburstKey (l : List PostRecord) :
    (l.filterMap sunburstKey).length = (l.filter fun r => (sunburstKey r).isSome).length := by
  induction l with
  | nil => rfl
  | cons a t ih =>
    cases h : sunburstKey a <;>
      simp [List.filterMap_cons, List.filter_cons, h, ih]

/-- The sunburst key is defined exactly on rows with all four grouping
columns non-null. -/
theorem sunburstKey_isSome (r : PostRecord) :
    (sunburstKey r).isSome = decide (r.Topic_Category ≠ none ∧ r.Local_Category ≠ none ∧
      r.Sentiment_Category ≠ none ∧ r.party ≠ none) := by
  rcases r with ⟨p, sc, lc, tc, _, _⟩
  cases p <;> cases sc <;> cases lc <;> cases tc <;> simp [sunburstKey]

/-- C9: the group counts of the sunburst aggregation add up to the number of
filtered rows whose four grouping keys are all non-null; rows with a null
key (for example a null Local_Category) are counted in the filtered total
but belong to no group. -/
theorem C9_group_counts_cover_nonnull (posts_df filtered : List PostRecord) :
    ((sunburst_data posts_df filtered).map (·.count)).sum
      = (filtered.filter fun r => decide (r.Topic_Category ≠ none ∧ r.Local_Category ≠ none ∧
          r.Sentiment_Category ≠ none ∧ r.party ≠ none)).length := by
  unfold sunburst_data
  simp only []
  rw [List.map_map]
  have hmap : ((filtered.filterMap sunburstKey).dedup.map
        ((fun g => g.count) ∘ fun k =>
          ({ Topic_Category := k.1, Local_Category := k.2.1, Sentiment_Category := k.2.2.1,
             party := k.2.2.2, count := (filtered.filterMap sunburstKey).count k,
             percentage_total := round1 ((qdiv ((filtered.filterMap sunburstKey).count k : ℚ)
               (posts_df.length : ℚ)) * 100),
             percentage_filtered := round1 ((qdiv ((filtered.filterMap sunburstKey).count k : ℚ)
               (filtered.length : ℚ)) * 100) } : SunburstRow)))
      = ((filtered.filterMap sunburstKey).dedup.map
          fun k => (filtered.filterMap sunburstKey).count k) :=
    List.map_congr_left fun k _ => rfl
  rw [hmap]
  have hcnt : ((filtered.filterMap sunburstKey).dedup.map
        fun k => (filtered.filterMap sunburstKey).count k)
      = ((filtered.filterMap sunburstKey).dedup.map
        fun k => ((filtered.filterMap sunburstKey).filter fun x => decide (x = k)).length) :=
    List.map_congr_left fun k _ => by
      rw [List.count_eq_countP, List.countP_eq_length_filter]
      exact congrArg List.length (List.filter_congr fun x _ => Bool.beq_eq_decide_eq x k)
  rw [hcnt, sum_fiber_lengths _ _ (List.nodup_dedup _) (fun x hx => List.mem_dedup.mpr hx),
    length_filterMap_sunburstKey]
  congr 1
  exact List.filter_congr fun r _ => sunburstKey_isSome r

/-- Summing the per-key counts of a list over its deduplicated keys gives
its length. -/
theorem sum_dedup_counts {α : Type} [DecidableEq α] [BEq α] [LawfulBEq α] (keys : List α) :
    (keys.dedup.map fun k => keys.count k).sum = keys.length := by
  have hcnt : (keys.dedup.map fun k => keys.count k)
      = (keys.dedup.map fun k => (keys.filter fun x => decide (x = k)).length) :=
    List.map_congr_left fun k _ => by
      rw [List.count_eq_countP, List.countP_eq_length_filter]
      exact congrArg List.length (List.filter_congr fun x _ => Bool.beq_eq_decide_eq x k)
  rw [hcnt]
  exact sum_fiber_lengths _ _ (List.nodup_dedup _) fun x hx => List.mem_dedup.mpr hx

/-- A filterMap by an everywhere-defined key keeps the length. -/
theorem length_filterMap_all_some (l : List PostRecord)
    (h : ∀ r ∈ l, (sunburstKey r).isSome = true) :
    (l.filterMap sunburstKey).length = l.length := by
  induction l with
  | nil => rfl
  | cons a t ih =>
    have ha := h a (by simp)
    cases hk : sunburstKey a
    · rw [hk] at ha
      cases ha
    · simp [List.filterMap_cons, hk, ih fun r hr => h r (List.mem_cons_of_mem _ hr)]

/-- Pointwise sums distribute over a mapped subtraction (ℚ version). -/
theorem sum_map_sub_rat {α : Type} (l : List α) (f g : α → ℚ) :
    (l.map fun a => f a - g a).sum = (l.map f).sum - (l.map g).sum := by
  induction l with
  | nil => simp
  | cons a t ih =>
    simp only [List.map_cons, List.sum_cons, ih]
    ring

/-- A sum of rationals bounded pointwise in absolute value is bounded by
length times the bound. -/
theorem abs_sum_le_length_mul {α : Type} (l : List α) (f : α → ℚ) (b : ℚ)
    (hb : ∀ a ∈ l, |f a| ≤ b) :
    |(l.map f).sum| ≤ (l.length : ℚ) * b := by
  induction l with
  | nil => simp
  | cons a t ih =>
    simp only [List.map_cons, List.sum_cons, List.length_cons]
    calc |f a + (t.map f).sum| ≤ |f a| + |(t.map f).sum| := abs_add _ _
      _ ≤ b + (t.length : ℚ) * b :=
        add_le_add (hb a (by simp)) (ih fun x hx => hb x (List.mem_cons_of_mem _ hx))
      _ = ((t.length : ℚ) + 1) * b := by ring
      _ = (((t.length + 1 : ℕ)) : ℚ) * b := by push_cast; ring

/-- C5 (amended): over a non-empty filtered subset all of whose rows carry
the four grouping keys, every sunburst group's filtered percentage is
`count / total * 100` rounded to one decimal, and the percentages sum to
100 up to the rounding error of at most `1/20` (that is, 0.05) per group. -/
theorem C5_sunburst_percentages (posts_df filtered : List PostRecord)
    (h0 : 0 < filtered.length)
    (hkeys : ∀ r ∈ filtered, (sunburstKey r).isSome = true) :
    (∀ g ∈ sunburst_data posts_df filtered,
        g.percentage_filtered = round1 ((g.count : ℚ) / (filtered.length : ℚ) * 100)) ∧
      |((sunburst_data posts_df filtered).map (·.percentage_filtered)).sum - 100|
        ≤ ((sunburst_data posts_df filtered).length : ℚ) * (1 / 20) := by
  have hnq : ((filtered.length : ℚ)) ≠ 0 := by
    exact_mod_cast Nat.pos_iff_ne_zero.mp h0
  constructor
  · intro g hg
    unfold sunburst_data at hg
    simp only [] at hg
    rcases List.mem_map.mp hg with ⟨k, _, rfl⟩
    show round1 (qdiv ((((filtered.filterMap sunburstKey).count k : ℕ)) : ℚ)
        ((filtered.length : ℕ) : ℚ) * 100) = _
    rw [qdiv_eq]
  · have hG : (sunburst_data posts_df filtered).map (·.percentage_filtered)
        = (filtered.filterMap sunburstKey).dedup.map
            (fun k => round1 (((filtered.filterMap sunburstKey).count k : ℚ)
              / (filtered.length : ℚ) * 100)) := by
      unfold sunburst_data
      simp only []
      rw [List.map_map]
      exact List.map_congr_left fun k _ => by
        show round1 (qdiv (((filtered.filterMap sunburstKey).count k : ℕ) : ℚ)
            ((filtered.length : ℕ) : ℚ) * 100) = _
        rw [qdiv_eq]
    have hlen : (sunburst_data posts_df filtered).length
        = (filtered.filterMap sunburstKey).dedup.length := by
      unfold sunburst_data
      simp only []
      rw [List.length_map]
    have hsum_x : ((filtered.filterMap sunburstKey).dedup.map
          (fun k => ((filtered.filterMap sunburstKey).count k : ℚ)
            / (filtered.length : ℚ) * 100)).sum = 100 := by
      rw [List.map_congr_left (fun k _ => by
        ring : ∀ k ∈ (filtered.filterMap sunburstKey).dedup,
          (((filtered.filterMap sunburstKey).count k : ℚ) / (filtered.length : ℚ) * 100)
            = (((filtered.filterMap sunburstKey).count k : ℚ))
                * (100 / (filtered.length : ℚ)))]
      rw [List.sum_map_mul_right]
      have h2 : ((filtered.filterMap sunburstKey).dedup.map
            fun k => (((filtered.filterMap sunburstKey).count k : ℕ) : ℚ)).sum
          = ((((filtered.filterMap sunburstKey).dedup.map
              fun k => (filtered.filterMap sunburstKey).count k).sum : ℕ) : ℚ) := by
        rw [Nat.cast_list_sum, List.map_map]
        rfl
      rw [h2, sum_dedup_counts, length_filterMap_all_some filtered hkeys]
      field_simp
    have hdiff : ((sunburst_data posts_df filtered).map (·.percentage_filtered)).sum - 100
        = ((filtered.filterMap sunburstKey).dedup.map
            (fun k => round1 (((filtered.filterMap sunburstKey).count k : ℚ)
                / (filtered.length : ℚ) * 100)
              - ((filtered.filterMap sunburstKey).count k : ℚ)
                / (filtered.length : ℚ) * 100)).sum := by
      rw [sum_map_sub_rat, hG, hsum_x]
    rw [hdiff, hlen]
    exact abs_sum_le_length_mul _ _ _ fun k _ => abs_round1_sub_le _

unseal Rat.add Rat.mul Rat.inv in
/-- C5 counterexample to the unamended claim: with a non-empty filtered
subset of two rows, one of which has a null Local_Category, the single
sunburst group holds 50.0 percent, so the percentages sum to 50, not to 100
within rounding error. -/
theorem C5_sunburst_percentages_counterexample :
    0 < (posts_filter [exPostNull, exPostFull] exCriteriaAll).length ∧
      ((sunburst_data [exPostNull, exPostFull]
          (posts_filter [exPostNull, exPostFull] exCriteriaAll)).map
        (·.percentage_filtered)).sum = 50 ∧
      ¬(|((sunburst_data [exPostNull, exPostFull]
            (posts_filter [exPostNull, exPostFull] exCriteriaAll)).map
          (·.percentage_filtered)).sum - 100|
          ≤ ((sunburst_data [exPostNull, exPostFull]
              (posts_filter [exPostNull, exPostFull] exCriteriaAll)).length : ℚ) * (1 / 20)) := by
  have h2 : ((sunburst_data [exPostNull, exPostFull]
      (posts_filter [exPostNull, exPostFull] exCriteriaAll)).map
    (·.percentage_filtered)).sum = 50 := by decide
  have h3 : (sunburst_data [exPostNull, exPostFull]
      (posts_filter [exPostNull, exPostFull] exCriteriaAll)).length = 1 := by decide
  refine ⟨by decide, h2, ?_⟩
  rw [h2, h3]
  intro hcontra
  rw [show (50:ℚ) - 100 = -50 by norm_num, abs_neg,
    abs_of_nonneg (by norm_num : (0:ℚ) ≤ 50)] at hcontra
  norm_num at hcontra

/-- Witness for C5 (amended) at a one-row filtered subset with all keys
present: the single group carries 100 percent. -/
theorem C5_sunburst_percentages_witness :
    (∀ g ∈ sunburst_data [exPostFull] [exPostFull],
        g.percentage_filtered
          = round1 ((g.count : ℚ) / (([exPostFull] : List PostRecord).length : ℚ) * 100)) ∧
      |((sunburst_data [exPostFull] [exPostFull]).map (·.percentage_filtered)).sum - 100|
        ≤ ((sunburst_data [exPostFull] [exPostFull]).length : ℚ) * (1 / 20) :=
  C5_sunburst_percentages [exPostFull] [exPostFull] (by decide) (by decide)
